import Mathlib

set_option maxRecDepth 100000

/-!
Verification development for the TrustChain skill-verification pipeline.

The Python sources under backend/skill_verifier are shallowly embedded:
pure data transformations become Lean functions over List, String, Nat and
Rat; machine floats are modeled as exact rationals with round-half-to-even
rounding; external effects (the OpenAI chat completion, json.loads, eval,
the Django cache, the network, the filesystem walk) are modeled as explicit
function parameters or as the already-collected input data, exactly at the
boundary where the Python code consumes their results.  Python str methods
used by the sources (lower, strip, replace, join, sorted) are re-implemented
on List Char so that every definition evaluates inside the Lean kernel.
-/

namespace TrustChain

/-! ## Python string primitives on List Char -/

/-- Lower-case a character, ASCII range only, as CPython does for ASCII
letters inside str.lower. -/
def lowerChar (c : Char) : Char :=
  if 'A' ≤ c ∧ c ≤ 'Z' then Char.ofNat (c.toNat + 32) else c

/-- Embedding of Python str.lower (restricted to ASCII case mapping, which
covers every string the pipeline manipulates). -/
def pyLower (s : String) : String := ⟨s.data.map lowerChar⟩

/-- Whitespace set of Python str.strip: space, tab, newline, carriage
return, vertical tab, form feed. -/
def isPyWhitespace (c : Char) : Bool :=
  c = ' ' || c = '\t' || c = '\n' || c = '\r' || c = '\x0b' || c = '\x0c'

/-- Embedding of Python str.strip with no argument. -/
def pyStrip (s : String) : String :=
  ⟨((s.data.dropWhile isPyWhitespace).reverse.dropWhile isPyWhitespace).reverse⟩

/-- If pat is a leading segment of s, return the remainder of s after it. -/
def chopLead : List Char → List Char → Option (List Char)
  | [], s => some s
  | _ :: _, [] => none
  | p :: ps, c :: cs => if p = c then chopLead ps cs else none

/-- Fuel-driven core of non-overlapping left-to-right replacement; the fuel
is the length of the scanned list, consumed one character per step. -/
def replaceGo (pat repl : List Char) : ℕ → List Char → List Char
  | 0, s => s
  | fuel + 1, s =>
    match s with
    | [] => []
    | c :: cs =>
      match chopLead pat s with
      | some rest => repl ++ replaceGo pat repl fuel rest
      | none => c :: replaceGo pat repl fuel cs

/-- Embedding of Python str.replace: non-overlapping occurrences of pat are
replaced left to right (the sources only call it with non-empty patterns). -/
def pyReplace (s pat repl : String) : String :=
  if pat.data = [] then s else ⟨replaceGo pat.data repl.data s.data.length s.data⟩

/-- Does needle occur as a contiguous segment of hay?  Embedding of the
Python substring test `needle in hay`. -/
def hasSub (hay needle : List Char) : Bool :=
  match hay with
  | [] => needle = []
  | _ :: t => (chopLead needle hay).isSome || hasSub t needle

/-- Lexicographic comparison of character lists by code point, the order
Python uses to compare str values. -/
def lexLeB : List Char → List Char → Bool
  | [], _ => true
  | _ :: _, [] => false
  | a :: as, b :: bs => if a < b then true else if b < a then false else lexLeB as bs

/-- Embedding of the Python str order used by sorted. -/
def strLeB (a b : String) : Bool := lexLeB a.data b.data

/-- Insert a string into an ascending list, before the first element it does
not exceed; the building block of the embedding of Python sorted. -/
def insertStrAsc (s : String) : List String → List String
  | [] => [s]
  | t :: ts => if strLeB s t then s :: t :: ts else t :: insertStrAsc s ts

/-- Embedding of Python sorted on lists of strings (a stable ascending
sort; equal keys are identical strings, so stability is immaterial). -/
def sortStrings (l : List String) : List String := l.foldr insertStrAsc []

/-- Embedding of Python ",".join. -/
def joinComma : List String → String
  | [] => ""
  | [s] => s
  | s :: rest => s ++ "," ++ joinComma rest

/-! ## skill_analyzer.py: basic_skill_verification -/

/-- Shape of the dictionary returned by basic_skill_verification in
skill_analyzer.py: the five keys it always populates. -/
structure VerificationResult where
  verified_skills : List String
  unverified_skills : List String
  additional_skills : List String
  verification_percentage : ℚ
  explanation : String
deriving DecidableEq

/-- Embedding of SkillAnalyzer.basic_skill_verification
(skill_analyzer.py lines 182-206).  The Python common_skills is
list(set(resume_skills_lower) & set(github_skills_lower)); a CPython set
iterates in an unspecified order, so the embedding fixes the canonical
first-occurrence order (dedup of the filtered list), which has exactly the
same elements, multiplicity one each, and the same length as the Python
value.  No claim depends on the order of verified_skills. -/
def basic_skill_verification (resume_skills github_skills : List String) : VerificationResult :=
  let resume_skills_lower := resume_skills.map pyLower
  let github_skills_lower := github_skills.map pyLower
  let common_skills := (resume_skills_lower.filter (fun s => s ∈ github_skills_lower)).dedup
  let unverified_skills := resume_skills.filter (fun s => pyLower s ∉ github_skills_lower)
  let additional_skills := github_skills.filter (fun s => pyLower s ∉ resume_skills_lower)
  { verified_skills := common_skills
    unverified_skills := unverified_skills
    additional_skills := additional_skills
    verification_percentage :=
      if resume_skills = [] then 0
      else (common_skills.length : ℚ) / (resume_skills.length : ℚ) * 100
    explanation := "Basic comparison performed. This is a fallback method." }

/-! ## skill_analyzer.py: verify_skills_with_llm -/

/-- Values of the JSON fragment relevant to the verifier: what json.loads
can return. -/
inductive JVal where
  | jnull : JVal
  | jbool (b : Bool) : JVal
  | jnum (q : ℚ) : JVal
  | jstr (s : String) : JVal
  | jarr (elems : List JVal) : JVal
  | jobj (fields : List (String × JVal)) : JVal

/-- Rendering of the basic_skill_verification dictionary as a JSON-level
value, with the five keys in the insertion order of the Python literal. -/
def VerificationResult.toJVal (v : VerificationResult) : JVal :=
  .jobj [("verified_skills", .jarr (v.verified_skills.map .jstr)),
         ("unverified_skills", .jarr (v.unverified_skills.map .jstr)),
         ("additional_skills", .jarr (v.additional_skills.map .jstr)),
         ("verification_percentage", .jnum v.verification_percentage),
         ("explanation", .jstr v.explanation)]

/-- Code-fence stripping shared by the three LLM consumers:
text.replace("```json", "").replace("```", "").strip(). -/
def clean_fences (text : String) : String :=
  pyStrip (pyReplace (pyReplace text "```json" "") "```" "")

/-- Required keys of the LLM verification response
(skill_analyzer.py lines 158-159). -/
def required_keys : List String :=
  ["verified_skills", "unverified_skills", "additional_skills",
   "verification_percentage", "explanation"]

/-- Default backfilled for a missing required key
(skill_analyzer.py lines 160-165): the explanation placeholder, an empty
array for keys containing the substring "skills", and 0 otherwise. -/
def keyDefault (key : String) : JVal :=
  if key = "explanation" then .jstr "No explanation provided"
  else if hasSub key.data "skills".data then .jarr []
  else .jnum 0

/-- Backfill pass over a parsed JSON object: for each required key absent
from the dictionary, append it with its default (Python dict assignment
appends new keys at the end, in loop order). -/
def backfill (kvs : List (String × JVal)) : List (String × JVal) :=
  required_keys.foldl
    (fun acc key =>
      if acc.any (fun p => p.1 = key) then acc else acc ++ [(key, keyDefault key)])
    kvs

/-- Embedding of SkillAnalyzer.verify_skills_with_llm
(skill_analyzer.py lines 101-180) on a cache miss.  The chat completion is
modeled by llm : none when the OpenAI call raises, some text when it
returns text; json.loads is modeled by the parameter jsonParse.  When the
parse yields a JSON object the required keys are backfilled and the object
returned; when it yields an array or string, the Python membership test
`key not in result` succeeds without raising only if every required key is
an element (resp. substring), in which case the value is returned
unchanged, and otherwise the subsequent item assignment raises TypeError,
which the inner except turns into the basic fallback; a number, boolean or
null makes the membership test itself raise, again reaching the fallback;
a failed parse reaches the fallback through the same except; a raised call
reaches it through the outer except. -/
def verify_skills_with_llm (jsonParse : String → Option JVal) (llm : Option String)
    (resume_skills github_skills : List String) : JVal :=
  match llm with
  | none => (basic_skill_verification resume_skills github_skills).toJVal
  | some text =>
    let result_text := clean_fences text
    match jsonParse result_text with
    | some (.jobj kvs) => .jobj (backfill kvs)
    | some (.jarr xs) =>
        if required_keys.all (fun k => xs.any (fun v => match v with | .jstr s => s = k | _ => false))
        then .jarr xs
        else (basic_skill_verification resume_skills github_skills).toJVal
    | some (.jstr s) =>
        if required_keys.all (fun k => hasSub s.data k.data)
        then .jstr s
        else (basic_skill_verification resume_skills github_skills).toJVal
    | some _ => (basic_skill_verification resume_skills github_skills).toJVal
    | none => (basic_skill_verification resume_skills github_skills).toJVal

/-! ## resume_parser.py: extract_skills_using_ai -/

/-- Outcome of the Python eval call on the cleaned response, as far as the
extractor inspects it: a list value (whose elements the extractor passes
through untouched, here kept as strings) or any non-list value. -/
inductive PyValue where
  | vlist (elems : List String) : PyValue
  | vother : PyValue
deriving DecidableEq

/-- Embedding of ResumeParser.extract_skills_using_ai
(resume_parser.py lines 16-54) on the path where the chat completion
returned text.  evalFn models the Python eval of the cleaned response:
none when eval raises, some v when it yields v.  skills starts as the
empty list, is overwritten only by a successful eval of a list value, and
is reset to empty when the value is not a list; a raised eval leaves it
empty. -/
def extract_skills_using_ai (evalFn : String → Option PyValue) (text : String) : List String :=
  let skills_text := clean_fences text
  match evalFn skills_text with
  | some (.vlist xs) => xs
  | some .vother => []
  | none => []

/-! ## skill_analyzer.py: generate_verification_hash, via SHA-256 -/

/-- Bit i of a natural number. -/
def bitAt (a i : ℕ) : ℕ := a / 2 ^ i % 2

/-- Bitwise exclusive or on 32-bit words represented as naturals. -/
def xor32 (a b : ℕ) : ℕ :=
  (List.range 32).foldl (fun acc i => acc + (bitAt a i + bitAt b i) % 2 * 2 ^ i) 0

/-- Bitwise conjunction on 32-bit words represented as naturals. -/
def and32 (a b : ℕ) : ℕ :=
  (List.range 32).foldl (fun acc i => acc + bitAt a i * bitAt b i * 2 ^ i) 0

/-- Bitwise complement on 32-bit words represented as naturals. -/
def not32 (a : ℕ) : ℕ := 4294967295 - a % 4294967296

/-- Addition modulo 2 to the 32. -/
def add32 (a b : ℕ) : ℕ := (a + b) % 4294967296

/-- Right rotation of a 32-bit word. -/
def rotr32 (a n : ℕ) : ℕ := (a / 2 ^ n + a % 2 ^ n * 2 ^ (32 - n)) % 4294967296

/-- Logical right shift of a 32-bit word. -/
def shr32 (a n : ℕ) : ℕ := a / 2 ^ n

/-- The SHA-256 round constants of FIPS 180-4. -/
def sha256K : List ℕ :=
  [1116352408, 1899447441, 3049323471, 3921009573, 961987163, 1508970993,
   2453635748, 2870763221, 3624381080, 310598401, 607225278, 1426881987,
   1925078388, 2162078206, 2614888103, 3248222580, 3835390401, 4022224774,
   264347078, 604807628, 770255983, 1249150122, 1555081692, 1996064986,
   2554220882, 2821834349, 2952996808, 3210313671, 3336571891, 3584528711,
   113926993, 338241895, 666307205, 773529912, 1294757372, 1396182291,
   1695183700, 1986661051, 2177026350, 2456956037, 2730485921, 2820302411,
   3259730800, 3345764771, 3516065817, 3600352804, 4094571909, 275423344,
   430227734, 506948616, 659060556, 883997877, 958139571, 1322822218,
   1537002063, 1747873779, 1955562222, 2024104815, 2227730452, 2361852424,
   2428436474, 2756734187, 3204031479, 3329325298]

/-- The SHA-256 initial hash value of FIPS 180-4. -/
def sha256H0 : List ℕ :=
  [1779033703, 3144134277, 1013904242, 2773480762, 1359893119, 2600822924,
   528734635, 1541459225]

/-- The SHA-256 choice function Ch. -/
def chF (x y z : ℕ) : ℕ := xor32 (and32 x y) (and32 (not32 x) z)

/-- The SHA-256 majority function Maj. -/
def majF (x y z : ℕ) : ℕ := xor32 (xor32 (and32 x y) (and32 x z)) (and32 y z)

/-- The SHA-256 function named Sigma0 in FIPS 180-4. -/
def bigSigma0 (x : ℕ) : ℕ := xor32 (xor32 (rotr32 x 2) (rotr32 x 13)) (rotr32 x 22)

/-- The SHA-256 function named Sigma1 in FIPS 180-4. -/
def bigSigma1 (x : ℕ) : ℕ := xor32 (xor32 (rotr32 x 6) (rotr32 x 11)) (rotr32 x 25)

/-- The SHA-256 function named sigma0 in FIPS 180-4. -/
def smallSigma0 (x : ℕ) : ℕ := xor32 (xor32 (rotr32 x 7) (rotr32 x 18)) (shr32 x 3)

/-- The SHA-256 function named sigma1 in FIPS 180-4. -/
def smallSigma1 (x : ℕ) : ℕ := xor32 (xor32 (rotr32 x 17) (rotr32 x 19)) (shr32 x 10)

/-- One extension step of the SHA-256 message schedule. -/
def scheduleStep (w : List ℕ) : List ℕ :=
  w ++ [add32 (add32 (smallSigma1 (w.getD (w.length - 2) 0)) (w.getD (w.length - 7) 0))
              (add32 (smallSigma0 (w.getD (w.length - 15) 0)) (w.getD (w.length - 16) 0))]

/-- Full 64-word message schedule from the 16 words of a block. -/
def schedule (w16 : List ℕ) : List ℕ := (List.range 48).foldl (fun w _ => scheduleStep w) w16

/-- Working state of the SHA-256 compression function. -/
structure Sha256State where
  sa : ℕ
  sb : ℕ
  sc : ℕ
  sd : ℕ
  se : ℕ
  sf : ℕ
  sg : ℕ
  sh : ℕ

/-- One round of the SHA-256 compression function; kw carries the round
constant and the schedule word. -/
def compressStep (st : Sha256State) (kw : ℕ × ℕ) : Sha256State :=
  let t1 := add32 (add32 (add32 st.sh (bigSigma1 st.se)) (add32 (chF st.se st.sf st.sg) kw.1)) kw.2
  let t2 := add32 (bigSigma0 st.sa) (majF st.sa st.sb st.sc)
  ⟨add32 t1 t2, st.sa, st.sb, st.sc, add32 st.sd t1, st.se, st.sf, st.sg⟩

/-- Compress one 16-word block into the running hash value. -/
def compressBlock (hs : List ℕ) (block : List ℕ) : List ℕ :=
  let ws := schedule block
  let st0 : Sha256State :=
    ⟨hs.getD 0 0, hs.getD 1 0, hs.getD 2 0, hs.getD 3 0,
     hs.getD 4 0, hs.getD 5 0, hs.getD 6 0, hs.getD 7 0⟩
  let stf := (sha256K.zip ws).foldl compressStep st0
  [add32 (hs.getD 0 0) stf.sa, add32 (hs.getD 1 0) stf.sb,
   add32 (hs.getD 2 0) stf.sc, add32 (hs.getD 3 0) stf.sd,
   add32 (hs.getD 4 0) stf.se, add32 (hs.getD 5 0) stf.sf,
   add32 (hs.getD 6 0) stf.sg, add32 (hs.getD 7 0) stf.sh]

/-- SHA-256 padding of a byte sequence: a 0x80 byte, zeros up to 56 mod 64,
then the bit length as 8 big-endian bytes. -/
def sha256Pad (msg : List ℕ) : List ℕ :=
  let L := msg.length
  let k := (119 - L % 64) % 64
  msg ++ [128] ++ List.replicate k 0 ++ (List.range 8).map (fun i => 8 * L / 256 ^ (7 - i) % 256)

/-- Split a padded byte sequence into 64-byte blocks. -/
def toBlocks (padded : List ℕ) : List (List ℕ) :=
  (List.range (padded.length / 64)).map (fun i => (padded.drop (64 * i)).take 64)

/-- Read the 16 big-endian 32-bit words of one 64-byte block. -/
def blockWords (block : List ℕ) : List ℕ :=
  (List.range 16).map (fun j =>
    block.getD (4 * j) 0 * 16777216 + block.getD (4 * j + 1) 0 * 65536 +
    block.getD (4 * j + 2) 0 * 256 + block.getD (4 * j + 3) 0)

/-- SHA-256 of a byte sequence, as the 8 words of the final hash value. -/
def sha256Words (msg : List ℕ) : List ℕ :=
  ((toBlocks (sha256Pad msg)).map blockWords).foldl compressBlock sha256H0

/-- Hexadecimal digit characters. -/
def hexDigit (n : ℕ) : Char :=
  if n < 10 then Char.ofNat (48 + n) else Char.ofNat (87 + n)

/-- Render one 32-bit word as 8 lowercase hex characters. -/
def wordHex (w : ℕ) : List Char := (List.range 8).map (fun i => hexDigit (w / 16 ^ (7 - i) % 16))

/-- UTF-8 encoding of one code point, the encoding Python str.encode uses. -/
def utf8Encode (c : ℕ) : List ℕ :=
  if c < 128 then [c]
  else if c < 2048 then [192 + c / 64, 128 + c % 64]
  else if c < 65536 then [224 + c / 4096, 128 + c / 64 % 64, 128 + c % 64]
  else [240 + c / 262144, 128 + c / 4096 % 64, 128 + c / 64 % 64, 128 + c % 64]

/-- UTF-8 bytes of a string. -/
def strBytes (s : String) : List ℕ :=
  s.data.foldr (fun c acc => utf8Encode c.toNat ++ acc) []

/-- Embedding of hashlib.sha256(x.encode()).hexdigest(). -/
def sha256hex (s : String) : String :=
  ⟨((sha256Words (strBytes s)).map wordHex).foldr (· ++ ·) []⟩

/-- Embedding of SkillAnalyzer.generate_verification_hash
(skill_analyzer.py lines 208-214).  The Django settings.SECRET_KEY is
injected configuration, passed here as the explicit secretKey argument. -/
def generate_verification_hash (github_username : String) (verified_skills : List String)
    (secretKey : String) : String :=
  let skills_string := joinComma (sortStrings (verified_skills.map pyLower))
  let data_to_hash := github_username ++ ":" ++ skills_string ++ ":" ++ secretKey
  sha256hex data_to_hash

/-! ## Rounding: the Python builtin round(x, 2) -/

/-- Round a rational to the nearest integer, halves to the even neighbour.
Models the Python builtin round, which rounds the nearest binary double of
the value, by exact rounding on the rational.  The two agree whenever the
argument is farther from a half-integer tie than the double approximation
error; a value whose exact form is a tie is generally not representable as
a double, so CPython resolves it by the float bits rather than by the even
neighbour.  Every concrete value this development evaluates through rne is
far from a tie, where both agree, and every general theorem stated about
it either evaluates such values or uses only the bound that rounding moves
a value by at most one half, which holds for either tie direction. -/
def rne (q : ℚ) : ℤ :=
  if q - ⌊q⌋ < 1 / 2 then ⌊q⌋
  else if 1 / 2 < q - ⌊q⌋ then ⌊q⌋ + 1
  else if 2 ∣ ⌊q⌋ then ⌊q⌋ else ⌊q⌋ + 1

/-- Embedding of round(x, 2). -/
def round2 (q : ℚ) : ℚ := (rne (q * 100) : ℚ) / 100

/-! ## Stable descending sort by a natural-number key

Embedding of Python sorted(xs, key=k, reverse=True): a stable sort placing
larger keys first, equal keys in original order.  Built as a left fold of
insertions so that every definition reduces in the kernel. -/

/-- Insert x into a descending list: x goes in front of the first element
whose key is strictly smaller, hence after every earlier element with an
equal key (stability). -/
def insertKeyDesc (k : α → ℕ) (x : α) : List α → List α
  | [] => [x]
  | y :: ys => if k y < k x then x :: y :: ys else y :: insertKeyDesc k x ys

/-- Stable descending sort by key, the embedding of
sorted(xs, key=k, reverse=True). -/
def sortKeyDesc (k : α → ℕ) (l : List α) : List α :=
  l.foldl (fun acc x => insertKeyDesc k x acc) []

/-- Strict order on index-tagged elements: strictly larger key first, equal
keys by ascending original position.  A stable descending sort of the
enumerated list is exactly a sorted arrangement for this order. -/
def idxKeyLt (k : α → ℕ) (a b : ℕ × α) : Prop :=
  k b.2 < k a.2 ∨ (k a.2 = k b.2 ∧ a.1 < b.1)

/-! ## github_service.py: analyze_code_complexity, high-complexity list -/

/-- One function record as lizard reports it and analyze_code_complexity
stores it (github_service.py lines 296-302): name, file, cyclomatic
complexity, lines of code, parameter count. -/
structure FuncRecord where
  name : String
  file : String
  ccn : ℕ
  nloc : ℕ
  params : ℕ
deriving DecidableEq

/-- Embedding of the high_complexity_functions computation of
GitHubService.analyze_code_complexity (github_service.py lines 294-318),
taking as input the sequence of all functions in encounter order (the
order lizard yields them across the scanned files): functions with
cyclomatic complexity strictly above 10 are collected in encounter order,
sorted descending by complexity with the stable Python sort, and truncated
to the first 10. -/
def high_complexity_functions (funcs : List FuncRecord) : List FuncRecord :=
  (sortKeyDesc (fun f => f.ccn) (funcs.filter (fun f => 10 < f.ccn))).take 10

/-! ## github_service.py: generate_skills_summary -/

/-- Per-repository analysis record as generate_skills_summary consumes it
(github_service.py lines 690-725): the error marker of analyze_repo for a
failed clone, the language byte counts of basic_info, the library tallies,
the framework list of patterns, the complexity summary, and the six
boolean practice flags. -/
structure RepoAnalysis where
  error : Bool
  languages : List (String × ℕ)
  libraries : List (String × ℕ)
  frameworks : List String
  avg_complexity : ℚ
  avg_nloc : ℚ
  total_functions : ℕ
  has_tests : Bool
  has_ci : Bool
  has_docs : Bool
  has_linter : Bool
  uses_oop : Bool
  uses_functional : Bool
deriving DecidableEq

/-- Counter update: add n to the tally of key, appending unseen keys at the
end, as Python Counter addition does with dict insertion order. -/
def addCount (acc : List (String × ℕ)) (key : String) (n : ℕ) : List (String × ℕ) :=
  match acc with
  | [] => [(key, n)]
  | (k, m) :: rest => if k = key then (k, m + n) :: rest else (k, m) :: addCount rest key n

/-- Fold a batch of tallies into a Counter. -/
def mergeCounts (acc : List (String × ℕ)) (items : List (String × ℕ)) : List (String × ℕ) :=
  items.foldl (fun a p => addCount a p.1 p.2) acc

/-- Running counts of the six practice flags
(github_service.py lines 681-688). -/
structure PracticeCounts where
  testing : ℕ
  ci_cd : ℕ
  documentation : ℕ
  code_quality : ℕ
  oop : ℕ
  functional : ℕ
deriving DecidableEq

/-- One loop iteration of the practice aggregation
(github_service.py lines 718-725). -/
def practiceStep (p : PracticeCounts) (r : RepoAnalysis) : PracticeCounts :=
  { testing := p.testing + (if r.has_tests then 1 else 0)
    ci_cd := p.ci_cd + (if r.has_ci then 1 else 0)
    documentation := p.documentation + (if r.has_docs then 1 else 0)
    code_quality := p.code_quality + (if r.has_linter then 1 else 0)
    oop := p.oop + (if r.uses_oop then 1 else 0)
    functional := p.functional + (if r.uses_functional then 1 else 0) }

/-- Per-language percentage computation shared between
generate_skills_summary (github_service.py lines 727-737) and
_generate_skill_metrics (lines 576-586): each byte count is divided by the
total byte count of the mapping and scaled to a percentage rounded to two
decimals. -/
def languagePercentages (langs : List (String × ℕ)) : List (String × ℕ × ℚ) :=
  let total := (langs.map Prod.snd).sum
  langs.map (fun p => (p.1, p.2, round2 ((p.2 : ℚ) / (total : ℚ) * 100)))

/-- Averaged cross-repository code metrics
(github_service.py lines 740-746). -/
structure AvgMetrics where
  complexity : ℚ
  function_size : ℚ
  total_functions : ℕ
deriving DecidableEq

/-- The skills summary dictionary built by generate_skills_summary
(github_service.py lines 756-764), without the username field. -/
structure SkillsSummary where
  languages : List (String × ℕ × ℚ)
  top_libraries : List (String × ℕ)
  frameworks : List String
  code_metrics : AvgMetrics
  practices : List (String × ℚ)
  repo_count : ℕ
deriving DecidableEq

/-- Embedding of GitHubService.generate_skills_summary
(github_service.py lines 658-768) on a cache miss, taking as input the
repos list of get_all_github_data(analyze=True).  The single Python loop
with a continue on the error marker is decomposed into folds over the
error-free repositories, which aggregate in the same order.  The list of
set(all_frameworks), whose CPython iteration order is unspecified, is
modeled by dedup to first-occurrence order. -/
def generate_skills_summary (repos : List RepoAnalysis) : SkillsSummary :=
  let survivors := repos.filter (fun r => !r.error)
  let all_languages := survivors.foldl (fun acc r => mergeCounts acc r.languages) []
  let all_libraries := survivors.foldl (fun acc r => mergeCounts acc r.libraries) []
  let all_frameworks := survivors.foldl (fun acc r => acc ++ r.frameworks) []
  let withFns := survivors.filter (fun r => 0 < r.total_functions)
  let avgComplexityList := withFns.map (fun r => r.avg_complexity)
  let avgFunctionSizeList := withFns.map (fun r => r.avg_nloc)
  let totalFns := (withFns.map (fun r => r.total_functions)).sum
  let counts := survivors.foldl practiceStep ⟨0, 0, 0, 0, 0, 0⟩
  let total_bytes := (all_languages.map Prod.snd).sum
  let language_percentages :=
    if 0 < total_bytes then languagePercentages (sortKeyDesc Prod.snd all_languages) else []
  let avg_metrics : AvgMetrics :=
    { complexity :=
        if avgComplexityList = [] then 0
        else round2 (avgComplexityList.sum / (avgComplexityList.length : ℚ))
      function_size :=
        if avgFunctionSizeList = [] then 0
        else round2 (avgFunctionSizeList.sum / (avgFunctionSizeList.length : ℚ))
      total_functions := totalFns }
  let repo_count := repos.length
  let practice_percentages :=
    if 0 < repo_count then
      [("testing", round2 ((counts.testing : ℚ) / (repo_count : ℚ) * 100)),
       ("ci_cd", round2 ((counts.ci_cd : ℚ) / (repo_count : ℚ) * 100)),
       ("documentation", round2 ((counts.documentation : ℚ) / (repo_count : ℚ) * 100)),
       ("code_quality", round2 ((counts.code_quality : ℚ) / (repo_count : ℚ) * 100)),
       ("oop", round2 ((counts.oop : ℚ) / (repo_count : ℚ) * 100)),
       ("functional", round2 ((counts.functional : ℚ) / (repo_count : ℚ) * 100))]
    else []
  { languages := language_percentages
    top_libraries := (sortKeyDesc Prod.snd all_libraries).take 10
    frameworks := all_frameworks.dedup
    code_metrics := avg_metrics
    practices := practice_percentages
    repo_count := repo_count }

/-! ## Division-checked variant of the aggregation

Every arithmetic division the Python code performs would raise
ZeroDivisionError on a zero denominator.  The checked variant routes each
division site of generate_skills_summary through divQ, which refuses a
zero denominator, and propagates the refusal; it returns some exactly when
no division by zero happens.  The guards are placed exactly where the
source guards its divisions. -/

/-- Division refusing a zero denominator, the observable of
ZeroDivisionError. -/
def divQ (a b : ℚ) : Option ℚ := if b = 0 then none else some (a / b)

/-- Option-valued map that fails when any element fails. -/
def mapOption (f : α → Option β) : List α → Option (List β)
  | [] => some []
  | x :: xs =>
    match f x, mapOption f xs with
    | some y, some ys => some (y :: ys)
    | _, _ => none

/-- Division-checked variant of languagePercentages. -/
def languagePercentagesChecked (langs : List (String × ℕ)) : Option (List (String × ℕ × ℚ)) :=
  let total := (langs.map Prod.snd).sum
  mapOption (fun p => (divQ (p.2 : ℚ) (total : ℚ)).map (fun q => (p.1, p.2, round2 (q * 100)))) langs

/-- Division-checked variant of generate_skills_summary: identical control
flow, with every division routed through divQ. -/
def generate_skills_summary_checked (repos : List RepoAnalysis) : Option SkillsSummary :=
  let survivors := repos.filter (fun r => !r.error)
  let all_languages := survivors.foldl (fun acc r => mergeCounts acc r.languages) []
  let all_libraries := survivors.foldl (fun acc r => mergeCounts acc r.libraries) []
  let all_frameworks := survivors.foldl (fun acc r => acc ++ r.frameworks) []
  let withFns := survivors.filter (fun r => 0 < r.total_functions)
  let avgComplexityList := withFns.map (fun r => r.avg_complexity)
  let avgFunctionSizeList := withFns.map (fun r => r.avg_nloc)
  let totalFns := (withFns.map (fun r => r.total_functions)).sum
  let counts := survivors.foldl practiceStep ⟨0, 0, 0, 0, 0, 0⟩
  let total_bytes := (all_languages.map Prod.snd).sum
  let language_percentages? :=
    if 0 < total_bytes then languagePercentagesChecked (sortKeyDesc Prod.snd all_languages)
    else some []
  let complexity? :=
    if avgComplexityList = [] then some (0 : ℚ)
    else (divQ avgComplexityList.sum (avgComplexityList.length : ℚ)).map round2
  let function_size? :=
    if avgFunctionSizeList = [] then some (0 : ℚ)
    else (divQ avgFunctionSizeList.sum (avgFunctionSizeList.length : ℚ)).map round2
  let repo_count := repos.length
  let practice_percentages? :=
    if 0 < repo_count then
      mapOption
        (fun p => (divQ (p.2 : ℚ) (repo_count : ℚ)).map (fun q => (p.1, round2 (q * 100))))
        [("testing", counts.testing), ("ci_cd", counts.ci_cd),
         ("documentation", counts.documentation), ("code_quality", counts.code_quality),
         ("oop", counts.oop), ("functional", counts.functional)]
    else some []
  match language_percentages?, complexity?, function_size?, practice_percentages? with
  | some lp, some cx, some fs, some pp =>
    some { languages := lp
           top_libraries := (sortKeyDesc Prod.snd all_libraries).take 10
           frameworks := all_frameworks.dedup
           code_metrics := { complexity := cx, function_size := fs, total_functions := totalFns }
           practices := pp
           repo_count := repo_count }
  | _, _, _, _ => none

/-! ## Concrete example inputs used by counterexamples and witnesses -/

/-- A repository entry carrying the error marker of a failed clone. -/
def errRepoEx : RepoAnalysis :=
  ⟨true, [], [], [], 0, 0, 0, false, false, false, false, false, false⟩

/-- An analyzed repository whose only notable datum is a passing tests
probe. -/
def testRepoEx : RepoAnalysis :=
  ⟨false, [], [], [], 0, 0, 0, true, false, false, false, false, false⟩

/-- An analyzed repository with language bytes and a tests probe but zero
analyzed functions. -/
def mdRepoEx : RepoAnalysis :=
  ⟨false, [("Markdown", 100)], [], [], 0, 0, 0, true, false, false, false, false, false⟩

/-- A concrete model of the Python eval on the cleaned example response. -/
def evalGoEx : String → Option PyValue :=
  fun s => if s = "[\"Go\",\"Docker\"]" then some (.vlist ["Go", "Docker"]) else none

/-- A language byte mapping with 23 languages and 1000000 bytes in total:
22 languages of 49 bytes each (percentage 0.0049) and one of 998922 bytes
(percentage 99.8922).  Every percentage is far from a two-decimal rounding
tie (0.0049 sits 0.0001 below the 0.005 tie and 99.8922 sits 0.0028 below
the 99.895 tie, against a double approximation error below 1e-13), so
CPython round and the exact model round the same way at every entry: the
small percentages round down to 0.00 and the large one to 99.89. -/
def langsCex : List (String × ℕ) :=
  [("L01", 49), ("L02", 49), ("L03", 49), ("L04", 49), ("L05", 49), ("L06", 49),
   ("L07", 49), ("L08", 49), ("L09", 49), ("L10", 49), ("L11", 49), ("L12", 49),
   ("L13", 49), ("L14", 49), ("L15", 49), ("L16", 49), ("L17", 49), ("L18", 49),
   ("L19", 49), ("L20", 49), ("L21", 49), ("L22", 49), ("Big", 998922)]

/-- Eleven functions above the complexity threshold, in encounter order. -/
def funcsEx : List FuncRecord :=
  [⟨"f01", "m.py", 22, 1, 0⟩, ⟨"f02", "m.py", 21, 1, 0⟩, ⟨"f03", "m.py", 20, 1, 0⟩,
   ⟨"f04", "m.py", 19, 1, 0⟩, ⟨"f05", "m.py", 18, 1, 0⟩, ⟨"f06", "m.py", 17, 1, 0⟩,
   ⟨"f07", "m.py", 16, 1, 0⟩, ⟨"f08", "m.py", 15, 1, 0⟩, ⟨"f09", "m.py", 14, 1, 0⟩,
   ⟨"f10", "m.py", 13, 1, 0⟩, ⟨"f11", "m.py", 12, 1, 0⟩]

/-! # Theorems -/

/-! ## Helper lemmas on basic_skill_verification -/

/-- Membership in the verified list is membership in both lowercased
projections. -/
theorem basic_verified_mem (r g : List String) (x : String) :
    x ∈ (basic_skill_verification r g).verified_skills ↔
      x ∈ r.map pyLower ∧ x ∈ g.map pyLower := by
  simp [basic_skill_verification, List.mem_dedup, List.mem_filter]

/-- Membership in the unverified list. -/
theorem basic_unverified_mem (r g : List String) (x : String) :
    x ∈ (basic_skill_verification r g).unverified_skills ↔
      x ∈ r ∧ pyLower x ∉ g.map pyLower := by
  simp [basic_skill_verification, List.mem_filter]

/-- The verified list has no duplicates. -/
theorem basic_verified_nodup (r g : List String) :
    (basic_skill_verification r g).verified_skills.Nodup :=
  List.nodup_dedup _

/-- The length of the verified list is the cardinality of the intersection
of the lowercased skill sets. -/
theorem basic_verified_length (r g : List String) :
    (basic_skill_verification r g).verified_skills.length =
      ((r.map pyLower).toFinset ∩ (g.map pyLower).toFinset).card := by
  show ((r.map pyLower).filter (fun s => decide (s ∈ g.map pyLower))).dedup.length = _
  rw [← List.card_toFinset, List.toFinset_filter]
  congr 1
  rw [← Finset.filter_mem_eq_inter]
  exact Finset.filter_congr (fun x _ => by simp [List.mem_toFinset])

/-- The verified list is no longer than the resume list. -/
theorem basic_verified_length_le (r g : List String) :
    (basic_skill_verification r g).verified_skills.length ≤ r.length := by
  show ((r.map pyLower).filter _).dedup.length ≤ r.length
  calc ((r.map pyLower).filter _).dedup.length
      ≤ ((r.map pyLower).filter _).length := (List.dedup_sublist _).length_le
    _ ≤ (r.map pyLower).length := List.length_filter_le _ _
    _ = r.length := List.length_map _ _

/-- Unfolding of the percentage field. -/
theorem basic_pct_def (r g : List String) :
    (basic_skill_verification r g).verification_percentage =
      if r = [] then 0
      else ((basic_skill_verification r g).verified_skills.length : ℚ) / (r.length : ℚ) * 100 :=
  rfl

/-- The percentage vanishes exactly when the verified list is empty. -/
theorem basic_pct_zero_iff (r g : List String) :
    (basic_skill_verification r g).verification_percentage = 0 ↔
      (basic_skill_verification r g).verified_skills = [] := by
  rw [basic_pct_def]
  rcases eq_or_ne r [] with hr | hr
  · subst hr
    simp [basic_skill_verification]
  · rw [if_neg hr]
    have hn : ((r.length : ℚ)) ≠ 0 := by
      exact_mod_cast (List.length_pos.2 hr).ne'
    constructor
    · intro h
      rcases mul_eq_zero.1 h with h | h
      · rcases div_eq_zero_iff.1 h with h | h
        · exact List.length_eq_zero.1 (by exact_mod_cast h)
        · exact absurd h hn
      · norm_num at h
    · intro h
      rw [h]
      simp

/-! ## C2 -/

/-- Claim C2 counterexample: for resume ["Python"] and GitHub ["Python"],
the verified_skills field is ["python"], not the resume-original casing
"Python"; the claim that each matched skill appears in resume-original
casing fails. -/
theorem basic_verified_skills_casing_counterexample :
    "Python" ∉ (basic_skill_verification ["Python"] ["Python"]).verified_skills ∧
    (basic_skill_verification ["Python"] ["Python"]).verified_skills = ["python"] := by
  exact ⟨by decide, by decide⟩

/-- Claim C2, amended: for every resume and GitHub skill list, the
verified_skills field contains each matched skill in lowercased form
(matching is case-insensitive): a string belongs to verified_skills
exactly when it is the lowercasing of some resume skill and of some GitHub
skill. -/
theorem basic_verified_skills_lowercased (r g : List String) (x : String) :
    x ∈ (basic_skill_verification r g).verified_skills ↔
      x ∈ r.map pyLower ∧ x ∈ g.map pyLower :=
  basic_verified_mem r g x

/-! ## C3 -/

/-- Claim C3 counterexample: for resume ["Python"] and an empty GitHub
list, the percentage is 0 while the resume list is not empty, refuting the
claim that the percentage is 0 exactly when the resume list is empty. -/
theorem basic_percentage_zero_nonempty_counterexample :
    (basic_skill_verification ["Python"] []).verification_percentage = 0 ∧
    (["Python"] : List String) ≠ [] := by
  refine ⟨?_, by decide⟩
  rw [basic_pct_zero_iff]
  decide

/-- Claim C3, amended: the percentage equals the cardinality of the
intersection of the lowercased skill sets divided by the resume length
times 100 (0 for an empty resume list), lies in [0, 100], and is 0 exactly
when that intersection is empty; in particular it is 0 whenever the resume
list is empty. -/
theorem basic_verification_percentage_amended (r g : List String) :
    0 ≤ (basic_skill_verification r g).verification_percentage ∧
    (basic_skill_verification r g).verification_percentage ≤ 100 ∧
    (basic_skill_verification r g).verification_percentage =
      (if r = [] then 0
       else (((r.map pyLower).toFinset ∩ (g.map pyLower).toFinset).card : ℚ) /
         (r.length : ℚ) * 100) ∧
    ((basic_skill_verification r g).verification_percentage = 0 ↔
      ((r.map pyLower).toFinset ∩ (g.map pyLower).toFinset) = ∅) := by
  have hlen := basic_verified_length r g
  have hle := basic_verified_length_le r g
  have hdef := basic_pct_def r g
  rcases eq_or_ne r [] with hr | hr
  · subst hr
    have hv : (basic_skill_verification [] g).verified_skills = [] := rfl
    refine ⟨by rw [hdef]; simp, by rw [hdef]; norm_num, by rw [hdef]; simp, ?_⟩
    rw [basic_pct_zero_iff, hv]
    constructor
    · intro _
      simp
    · intro _
      rfl
  · have hpos : 0 < r.length := List.length_pos.2 hr
    have hq : (0 : ℚ) < (r.length : ℚ) := by exact_mod_cast hpos
    have hL : ((basic_skill_verification r g).verified_skills.length : ℚ) ≤ (r.length : ℚ) := by
      exact_mod_cast hle
    refine ⟨?_, ?_, ?_, ?_⟩
    · rw [hdef, if_neg hr]
      positivity
    · rw [hdef, if_neg hr]
      have h1 : ((basic_skill_verification r g).verified_skills.length : ℚ) / (r.length : ℚ) ≤ 1 :=
        (div_le_one hq).2 hL
      calc ((basic_skill_verification r g).verified_skills.length : ℚ) / (r.length : ℚ) * 100
          ≤ 1 * 100 := mul_le_mul_of_nonneg_right h1 (by norm_num)
        _ = 100 := by norm_num
    · rw [hdef, if_neg hr, if_neg hr, hlen]
    · rw [basic_pct_zero_iff]
      constructor
      · intro h
        have h0 : (basic_skill_verification r g).verified_skills.length = 0 := by
          rw [h]
          rfl
        rw [hlen] at h0
        exact Finset.card_eq_zero.1 h0
      · intro h
        have h0 : (basic_skill_verification r g).verified_skills.length = 0 := by
          rw [hlen, h]
          exact Finset.card_empty
        exact List.length_eq_zero.1 h0

/-! ## C10 -/

/-- Claim C10: basic_skill_verification partitions the resume skills: for
each resume skill, its lowercase form is in verified_skills exactly when it
occurs lowercased in the GitHub list; the skill is verbatim in
unverified_skills exactly when it does not; verified_skills has no
duplicates; and no resume skill is counted in both fields. -/
theorem basic_verification_partition (r g : List String) :
    (∀ s ∈ r, (pyLower s ∈ (basic_skill_verification r g).verified_skills ↔
        pyLower s ∈ g.map pyLower)) ∧
    (∀ s ∈ r, (s ∈ (basic_skill_verification r g).unverified_skills ↔
        pyLower s ∉ g.map pyLower)) ∧
    (basic_skill_verification r g).verified_skills.Nodup ∧
    (∀ s ∈ r, ¬(pyLower s ∈ (basic_skill_verification r g).verified_skills ∧
        s ∈ (basic_skill_verification r g).unverified_skills)) := by
  refine ⟨?_, ?_, basic_verified_nodup r g, ?_⟩
  · intro s hs
    rw [basic_verified_mem]
    exact ⟨fun h => h.2, fun h => ⟨List.mem_map_of_mem _ hs, h⟩⟩
  · intro s hs
    rw [basic_unverified_mem]
    exact ⟨fun h => h.2, fun h => ⟨hs, h⟩⟩
  · intro s hs ⟨hv, hu⟩
    rw [basic_verified_mem] at hv
    rw [basic_unverified_mem] at hu
    exact hu.2 hv.2

/-- Witness for C10 at a concrete input. -/
theorem basic_verification_partition_witness :
    ("Go" ∈ (["Go", "Rust"] : List String)) ∧
    (pyLower "Go" ∈ (basic_skill_verification ["Go", "Rust"] ["go"]).verified_skills ↔
      pyLower "Go" ∈ (["go"] : List String).map pyLower) :=
  ⟨by decide, (basic_verification_partition ["Go", "Rust"] ["go"]).1 "Go" (by decide)⟩

/-! ## C1 -/

/-- Claim C1: if the chat completion raises, or its response after
code-fence stripping fails to parse as JSON, verify_skills_with_llm
returns exactly the dictionary basic_skill_verification builds from the
same inputs. -/
theorem verify_llm_failure_falls_back_to_basic (jsonParse : String → Option JVal)
    (llm : Option String) (r g : List String)
    (h : llm = none ∨ ∃ t, llm = some t ∧ jsonParse (clean_fences t) = none) :
    verify_skills_with_llm jsonParse llm r g = (basic_skill_verification r g).toJVal := by
  rcases h with rfl | ⟨t, rfl, hp⟩
  · rfl
  · simp only [verify_skills_with_llm, hp]

/-- Witness for C1 at a concrete input: a parser rejecting everything. -/
theorem verify_llm_failure_falls_back_to_basic_witness :
    verify_skills_with_llm (fun _ => none) (some "oops") ["Go"] ["go"] =
      (basic_skill_verification ["Go"] ["go"]).toJVal :=
  verify_llm_failure_falls_back_to_basic _ _ _ _ (Or.inr ⟨"oops", rfl, rfl⟩)

/-! ## C8 -/

/-- Claim C8: extract_skills_using_ai strips code-fence markup and
evaluates the remainder; a failed parse or a non-list value yields the
empty list without propagating an exception, and the fenced example
response yields ["Go", "Docker"]. -/
theorem extract_skills_error_handling :
    (∀ (evalFn : String → Option PyValue) (text : String),
        (evalFn (clean_fences text) = none ∨ evalFn (clean_fences text) = some .vother) →
        extract_skills_using_ai evalFn text = []) ∧
    (∀ evalFn : String → Option PyValue,
        evalFn "[\"Go\",\"Docker\"]" = some (.vlist ["Go", "Docker"]) →
        extract_skills_using_ai evalFn "```json\n[\"Go\",\"Docker\"]\n```" = ["Go", "Docker"]) := by
  constructor
  · intro evalFn text h
    rcases h with h | h <;> simp only [extract_skills_using_ai, h]
  · intro evalFn h
    have hc : clean_fences "```json\n[\"Go\",\"Docker\"]\n```" = "[\"Go\",\"Docker\"]" := by decide
    simp only [extract_skills_using_ai, hc, h]

/-- Witness for C8 at concrete inputs. -/
theorem extract_skills_error_handling_witness :
    extract_skills_using_ai (fun _ => none) "oops" = [] ∧
    extract_skills_using_ai evalGoEx "```json\n[\"Go\",\"Docker\"]\n```" = ["Go", "Docker"] :=
  ⟨extract_skills_error_handling.1 _ _ (Or.inl rfl),
   extract_skills_error_handling.2 evalGoEx (by decide)⟩

/-! ## Helper lemmas on the stable descending sort -/

/-- Inserting adds exactly one occurrence of the inserted element. -/
theorem insertKeyDesc_perm {α : Type _} (k : α → ℕ) (x : α) (l : List α) :
    (insertKeyDesc k x l).Perm (x :: l) := by
  induction l with
  | nil => exact List.Perm.refl _
  | cons y ys ih =>
    by_cases h : k y < k x
    · simp only [insertKeyDesc, if_pos h]
      exact List.Perm.refl _
    · simp only [insertKeyDesc, if_neg h]
      exact (ih.cons y).trans (List.Perm.swap x y ys)

/-- The fold of insertions permutes the accumulator and the input. -/
theorem sortKeyDesc_perm_aux {α : Type _} (k : α → ℕ) :
    ∀ (l acc : List α), (l.foldl (fun a x => insertKeyDesc k x a) acc).Perm (acc ++ l) := by
  intro l
  induction l with
  | nil =>
    intro acc
    simp
  | cons x xs ih =>
    intro acc
    simp only [List.foldl_cons]
    refine (ih (insertKeyDesc k x acc)).trans ?_
    refine (List.Perm.append_right xs (insertKeyDesc_perm k x acc)).trans ?_
    exact List.perm_middle.symm

/-- The stable descending sort permutes its input. -/
theorem sortKeyDesc_perm {α : Type _} (k : α → ℕ) (l : List α) :
    (sortKeyDesc k l).Perm l := by
  simpa [sortKeyDesc] using sortKeyDesc_perm_aux k l []

/-- Insertion preserves the descending key arrangement. -/
theorem insertKeyDesc_pairwise {α : Type _} (k : α → ℕ) (x : α) (l : List α)
    (h : l.Pairwise (fun a b => k b ≤ k a)) :
    (insertKeyDesc k x l).Pairwise (fun a b => k b ≤ k a) := by
  induction l with
  | nil => simp [insertKeyDesc]
  | cons y ys ih =>
    rcases List.pairwise_cons.1 h with ⟨hy, hys⟩
    by_cases hxy : k y < k x
    · simp only [insertKeyDesc, if_pos hxy]
      refine List.pairwise_cons.2 ⟨?_, h⟩
      intro z hz
      rcases List.mem_cons.1 hz with rfl | hz
      · exact le_of_lt hxy
      · exact le_trans (hy z hz) (le_of_lt hxy)
    · simp only [insertKeyDesc, if_neg hxy]
      refine List.pairwise_cons.2 ⟨?_, ih hys⟩
      intro z hz
      rcases List.mem_cons.1 ((insertKeyDesc_perm k x ys).subset hz) with rfl | hz2
      · exact le_of_not_lt hxy
      · exact hy z hz2

/-- The fold of insertions keeps the accumulator descending. -/
theorem sortKeyDesc_pairwise_aux {α : Type _} (k : α → ℕ) :
    ∀ (l acc : List α), acc.Pairwise (fun a b => k b ≤ k a) →
      (l.foldl (fun a x => insertKeyDesc k x a) acc).Pairwise (fun a b => k b ≤ k a) := by
  intro l
  induction l with
  | nil =>
    intro acc h
    exact h
  | cons x xs ih =>
    intro acc h
    exact ih _ (insertKeyDesc_pairwise k x acc h)

/-- The stable descending sort yields a descending arrangement. -/
theorem sortKeyDesc_pairwise {α : Type _} (k : α → ℕ) (l : List α) :
    (sortKeyDesc k l).Pairwise (fun a b => k b ≤ k a) :=
  sortKeyDesc_pairwise_aux k l [] List.Pairwise.nil

/-- Insertion commutes with mapping off a key-transparent tag. -/
theorem insertKeyDesc_map {α β : Type _} (k : α → ℕ) (f : β → α) (x : β) (l : List β) :
    (insertKeyDesc (fun b => k (f b)) x l).map f = insertKeyDesc k (f x) (l.map f) := by
  induction l with
  | nil => rfl
  | cons y ys ih =>
    by_cases h : k (f y) < k (f x)
    · simp only [insertKeyDesc, List.map_cons, if_pos h]
    · simp only [insertKeyDesc, List.map_cons, if_neg h, ih]

/-- The sort fold commutes with mapping off a key-transparent tag. -/
theorem sortKeyDesc_map_aux {α β : Type _} (k : α → ℕ) (f : β → α) :
    ∀ (l acc : List β),
      (l.foldl (fun a x => insertKeyDesc (fun b => k (f b)) x a) acc).map f =
        (l.map f).foldl (fun a x => insertKeyDesc k x a) (acc.map f) := by
  intro l
  induction l with
  | nil =>
    intro acc
    rfl
  | cons x xs ih =>
    intro acc
    simp only [List.foldl_cons, List.map_cons]
    rw [ih, insertKeyDesc_map]

/-- Sorting the enumerated list and dropping the indices is sorting the
plain list: the index tags are transparent to the comparison. -/
theorem sortKeyDesc_enum_snd {α : Type _} (k : α → ℕ) (l : List α) :
    (sortKeyDesc (fun p : ℕ × α => k p.2) l.enum).map Prod.snd = sortKeyDesc k l := by
  have h := sortKeyDesc_map_aux k (Prod.snd : ℕ × α → α) l.enum []
  simp only [sortKeyDesc]
  rw [h, List.enum_map_snd]
  rfl

/-- Inserting an element whose tag exceeds every tag present preserves the
strict arrangement by descending key then ascending tag. -/
theorem insertKeyDesc_idx_pairwise {α : Type _} (k : α → ℕ) (i : ℕ) (x : α)
    (l : List (ℕ × α)) (hp : l.Pairwise (idxKeyLt k)) (hi : ∀ p ∈ l, p.1 < i) :
    (insertKeyDesc (fun p => k p.2) (i, x) l).Pairwise (idxKeyLt k) := by
  induction l with
  | nil => simp [insertKeyDesc]
  | cons q qs ih =>
    rcases List.pairwise_cons.1 hp with ⟨hq, hqs⟩
    by_cases hlt : k q.2 < k x
    · simp only [insertKeyDesc, if_pos hlt]
      refine List.pairwise_cons.2 ⟨?_, hp⟩
      intro z hz
      rcases List.mem_cons.1 hz with rfl | hz
      · exact Or.inl hlt
      · rcases hq z hz with h | ⟨heq, _⟩
        · exact Or.inl (lt_trans h hlt)
        · exact Or.inl (heq ▸ hlt)
    · simp only [insertKeyDesc, if_neg hlt]
      have hq1 : q.1 < i := hi q (List.mem_cons_self q qs)
      refine List.pairwise_cons.2
        ⟨?_, ih hqs (fun p hp2 => hi p (List.mem_cons_of_mem q hp2))⟩
      intro z hz
      rcases List.mem_cons.1 ((insertKeyDesc_perm _ (i, x) qs).subset hz) with rfl | hz3
      · rcases (le_of_not_lt hlt).lt_or_eq with h | h
        · exact Or.inl h
        · exact Or.inr ⟨h.symm, hq1⟩
      · exact hq z hz3

/-- The sort fold on a tag-ascending input keeps the accumulator strictly
arranged by descending key then ascending tag. -/
theorem sortKeyDesc_idx_aux {α : Type _} (k : α → ℕ) :
    ∀ (l acc : List (ℕ × α)), acc.Pairwise (idxKeyLt k) →
      (∀ p ∈ acc, ∀ q ∈ l, p.1 < q.1) →
      l.Pairwise (fun a b => a.1 < b.1) →
      (l.foldl (fun a x => insertKeyDesc (fun p => k p.2) x a) acc).Pairwise (idxKeyLt k) := by
  intro l
  induction l with
  | nil =>
    intro acc h _ _
    exact h
  | cons x xs ih =>
    intro acc hacc hcross hl
    obtain ⟨i, a⟩ := x
    rcases List.pairwise_cons.1 hl with ⟨hx, hxs⟩
    simp only [List.foldl_cons]
    refine ih _ ?_ ?_ hxs
    · exact insertKeyDesc_idx_pairwise k i a acc hacc
        (fun p hp => hcross p hp (i, a) (List.mem_cons_self _ _))
    · intro p hp q hq
      rcases List.mem_cons.1 ((insertKeyDesc_perm _ (i, a) acc).subset hp) with rfl | hp3
      · exact hx q hq
      · exact hcross p hp3 q (List.mem_cons_of_mem _ hq)

/-- Tags are strictly ascending along an enumeration from any start. -/
theorem pairwise_fst_lt_enumFrom {α : Type _} (n : ℕ) (l : List α) :
    (List.enumFrom n l).Pairwise (fun a b => a.1 < b.1) := by
  induction l generalizing n with
  | nil => simp
  | cons x xs ih =>
    simp only [List.enumFrom]
    refine List.pairwise_cons.2 ⟨?_, ih (n + 1)⟩
    intro q hq
    obtain ⟨i, b⟩ := q
    exact lt_of_lt_of_le (Nat.lt_succ_self n) (List.mem_enumFrom hq).1

/-- The stable descending sort of an enumerated list is strictly arranged
by key descending, ties by ascending original position: stability. -/
theorem sortKeyDesc_idx_pairwise {α : Type _} (k : α → ℕ) (l : List α) :
    (sortKeyDesc (fun p : ℕ × α => k p.2) l.enum).Pairwise (idxKeyLt k) :=
  sortKeyDesc_idx_aux k l.enum [] List.Pairwise.nil (by simp)
    (pairwise_fst_lt_enumFrom 0 l)

/-! ## C9 -/

/-- Claim C9 counterexample: a single encountered function of cyclomatic
complexity 5, the highest encountered, is absent from
high_complexity_functions, because the code first filters to complexity
strictly above 10; the field does not contain the highest-complexity
functions encountered. -/
theorem high_complexity_threshold_counterexample :
    high_complexity_functions [⟨"f", "m.py", 5, 4, 1⟩] = [] ∧
    ([⟨"f", "m.py", 5, 4, 1⟩] : List FuncRecord) ≠ [] := by
  exact ⟨by decide, by decide⟩

/-- Claim C9, amended: high_complexity_functions holds at most 10 entries;
it is descending in cyclomatic complexity; it is the 10-entry front of the
stable descending sort of the functions with complexity strictly above 10,
whose ties are arranged by encounter order (the enumerated sort is
strictly arranged by key descending then original index ascending); the
sort permutes the filtered encounter sequence; and every function it cuts
off has complexity at most that of every retained entry. -/
theorem high_complexity_functions_amended (funcs : List FuncRecord) :
    (high_complexity_functions funcs).length ≤ 10 ∧
    (high_complexity_functions funcs).Pairwise (fun a b => b.ccn ≤ a.ccn) ∧
    high_complexity_functions funcs =
      ((sortKeyDesc (fun p : ℕ × FuncRecord => p.2.ccn)
          (funcs.filter (fun f => 10 < f.ccn)).enum).map Prod.snd).take 10 ∧
    (sortKeyDesc (fun p : ℕ × FuncRecord => p.2.ccn)
        (funcs.filter (fun f => 10 < f.ccn)).enum).Pairwise (idxKeyLt (fun f => f.ccn)) ∧
    (sortKeyDesc (fun f => f.ccn) (funcs.filter (fun f => 10 < f.ccn))).Perm
      (funcs.filter (fun f => 10 < f.ccn)) ∧
    ∀ a ∈ high_complexity_functions funcs,
      ∀ b ∈ (sortKeyDesc (fun f => f.ccn) (funcs.filter (fun f => 10 < f.ccn))).drop 10,
        b.ccn ≤ a.ccn := by
  have hpair := sortKeyDesc_pairwise (fun f => f.ccn) (funcs.filter (fun f => 10 < f.ccn))
  refine ⟨?_, ?_, ?_, sortKeyDesc_idx_pairwise _ _, sortKeyDesc_perm _ _, ?_⟩
  · exact List.length_take_le 10 _
  · exact hpair.sublist (List.take_sublist 10 _)
  · rw [sortKeyDesc_enum_snd]
    rfl
  · intro a ha b hb
    have h2 : ((sortKeyDesc (fun f => f.ccn) (funcs.filter (fun f => 10 < f.ccn))).take 10 ++
        (sortKeyDesc (fun f => f.ccn) (funcs.filter (fun f => 10 < f.ccn))).drop 10).Pairwise
        (fun a b => b.ccn ≤ a.ccn) := by
      rw [List.take_append_drop]
      exact hpair
    exact (List.pairwise_append.1 h2).2.2 a ha b hb

/-- Witness for C9: with eleven functions above the threshold, the cut-off
eleventh has complexity at most the retained tenth. -/
theorem high_complexity_functions_amended_witness :
    (⟨"f10", "m.py", 13, 1, 0⟩ : FuncRecord) ∈ high_complexity_functions funcsEx ∧
    (⟨"f11", "m.py", 12, 1, 0⟩ : FuncRecord) ∈
      (sortKeyDesc (fun f => f.ccn) (funcsEx.filter (fun f => 10 < f.ccn))).drop 10 ∧
    (⟨"f11", "m.py", 12, 1, 0⟩ : FuncRecord).ccn ≤ (⟨"f10", "m.py", 13, 1, 0⟩ : FuncRecord).ccn :=
  ⟨by decide, by decide,
   (high_complexity_functions_amended funcsEx).2.2.2.2.2 _ (by decide) _ (by decide)⟩

/-! ## Helper lemmas on rounding -/

/-- Rounding to the nearest integer moves a rational by at most one half. -/
theorem abs_rne_sub_le (q : ℚ) : |(rne q : ℚ) - q| ≤ 1 / 2 := by
  have h0 : ((⌊q⌋ : ℚ)) ≤ q := Int.floor_le q
  have h1 : q < ⌊q⌋ + 1 := Int.lt_floor_add_one q
  unfold rne
  split_ifs with ha hb hc
  · rw [abs_le]
    constructor <;> linarith
  · rw [abs_le]
    have ha2 := not_lt.1 ha
    push_cast
    constructor <;> linarith
  · rw [abs_le]
    have ha2 := not_lt.1 ha
    have hb2 := not_lt.1 hb
    constructor <;> linarith
  · rw [abs_le]
    have ha2 := not_lt.1 ha
    have hb2 := not_lt.1 hb
    push_cast
    constructor <;> linarith

/-- Rounding to two decimals moves a rational by at most 1/200. -/
theorem abs_round2_sub_le (q : ℚ) : |round2 q - q| ≤ 1 / 200 := by
  have h := abs_rne_sub_le (q * 100)
  unfold round2
  have h2 : (rne (q * 100) : ℚ) / 100 - q = ((rne (q * 100) : ℚ) - q * 100) / 100 := by
    ring
  rw [h2, abs_div]
  have h3 : |(100 : ℚ)| = 100 := by norm_num
  rw [h3]
  linarith

/-- Any rounding map that moves each value by at most 1/200 moves a list
sum by at most 1/200 per element.  The bound does not depend on how the
map resolves ties, so it covers the exact half-to-even model and the
CPython double rounding alike. -/
theorem sum_map_rnd_err (rnd : ℚ → ℚ) (hr : ∀ x : ℚ, |rnd x - x| ≤ 1 / 200)
    (xs : List ℚ) : |(xs.map rnd).sum - xs.sum| ≤ (xs.length : ℚ) / 200 := by
  induction xs with
  | nil => simp
  | cons x xs ih =>
    simp only [List.map_cons, List.sum_cons, List.length_cons]
    have hx := hr x
    have h2 : rnd x + (xs.map rnd).sum - (x + xs.sum) =
        (rnd x - x) + ((xs.map rnd).sum - xs.sum) := by
      ring
    rw [h2]
    calc |(rnd x - x) + ((xs.map rnd).sum - xs.sum)|
        ≤ |rnd x - x| + |(xs.map rnd).sum - xs.sum| := abs_add _ _
      _ ≤ 1 / 200 + (xs.length : ℚ) / 200 := add_le_add hx ih
      _ = ((xs.length + 1 : ℕ) : ℚ) / 200 := by push_cast; ring

/-- The percentages of languagePercentages are the rounded exact
percentages. -/
theorem languagePercentages_map_pct (langs : List (String × ℕ)) :
    (languagePercentages langs).map (fun e => e.2.2) =
      (langs.map (fun p => (p.2 : ℚ) / (((langs.map Prod.snd).sum : ℕ) : ℚ) * 100)).map
        round2 := by
  unfold languagePercentages
  rw [List.map_map, List.map_map]
  rfl

/-- Summing the exact percentages factors out the common denominator. -/
theorem sum_map_pct (langs : List (String × ℕ)) (T : ℚ) :
    (langs.map (fun p => (p.2 : ℚ) / T * 100)).sum =
      (((langs.map Prod.snd).sum : ℕ) : ℚ) / T * 100 := by
  induction langs with
  | nil => simp
  | cons p ps ih =>
    simp only [List.map_cons, List.sum_cons]
    rw [ih]
    push_cast
    ring

/-! ## C7 -/

/-- Claim C7 counterexample: on the 23-language mapping langsCex with
total 1000000 bytes, the 22 percentages of 0.0049 round down to 0 and the
remaining 99.8922 rounds to 99.89, so the rounded percentages sum to
99.89, which misses 100 by 0.11, outside the claimed ±0.1 tolerance.  No
percentage is near a rounding tie, so CPython round(x, 2) on the doubles
the program computes takes the same branch as the exact model at every
entry. -/
theorem language_percentage_sum_tolerance_counterexample :
    0 < (langsCex.map Prod.snd).sum ∧
    ¬ |((languagePercentages langsCex).map (fun e => e.2.2)).sum - 100| ≤ 1 / 10 := by
  constructor
  · decide
  · have h49 : round2 (49 / 10000) = 0 := by
      unfold round2 rne
      norm_num
    have hbig : round2 (499461 / 5000) = 9989 / 100 := by
      unfold round2 rne
      norm_num
    have hmap := languagePercentages_map_pct langsCex
    have htot : (langsCex.map Prod.snd).sum = 1000000 := by decide
    rw [hmap, htot]
    simp only [langsCex, List.map_cons, List.map_nil, List.sum_cons, List.sum_nil]
    push_cast
    norm_num [h49, hbig]
    rw [abs_of_pos (by norm_num : (0 : ℚ) < 11 / 100)]
    norm_num

/-- Claim C7, amended: for every language byte mapping with positive total
and at most 20 languages, the sum of the rounded per-language percentages
is within ±0.1 of 100; moreover the same tolerance holds with the exact
rounding replaced by any map that moves each value by at most 0.005, so
the bound is independent of how ties are resolved and covers in particular
the CPython rounding of the doubles the program computes.  With enough
languages the tolerance can fail, as the 23-language counterexample
shows. -/
theorem language_percentage_sum_amended (langs : List (String × ℕ))
    (h0 : 0 < (langs.map Prod.snd).sum) (h20 : langs.length ≤ 20) :
    |((languagePercentages langs).map (fun e => e.2.2)).sum - 100| ≤ 1 / 10 ∧
    ∀ rnd : ℚ → ℚ, (∀ x : ℚ, |rnd x - x| ≤ 1 / 200) →
      |(langs.map (fun p =>
          rnd ((p.2 : ℚ) / (((langs.map Prod.snd).sum : ℕ) : ℚ) * 100))).sum - 100| ≤
        1 / 10 := by
  have hTne : ((((langs.map Prod.snd).sum : ℕ)) : ℚ) ≠ 0 := by
    exact_mod_cast h0.ne'
  have key : ∀ rnd : ℚ → ℚ, (∀ x : ℚ, |rnd x - x| ≤ 1 / 200) →
      |(langs.map (fun p =>
          rnd ((p.2 : ℚ) / (((langs.map Prod.snd).sum : ℕ) : ℚ) * 100))).sum - 100| ≤
        1 / 10 := by
    intro rnd hr
    have herr := sum_map_rnd_err rnd hr
      (langs.map (fun p => (p.2 : ℚ) / (((langs.map Prod.snd).sum : ℕ) : ℚ) * 100))
    have hsum := sum_map_pct langs ((((langs.map Prod.snd).sum : ℕ)) : ℚ)
    rw [div_self hTne, one_mul] at hsum
    rw [hsum] at herr
    have hlen : ((langs.map
        (fun p => (p.2 : ℚ) / (((langs.map Prod.snd).sum : ℕ) : ℚ) * 100)).length : ℚ) ≤
        20 := by
      rw [List.length_map]
      exact_mod_cast h20
    have hfin : |((langs.map
        (fun p => (p.2 : ℚ) / (((langs.map Prod.snd).sum : ℕ) : ℚ) * 100)).map rnd).sum -
          100| ≤ 1 / 10 := by
      calc |((langs.map
            (fun p => (p.2 : ℚ) / (((langs.map Prod.snd).sum : ℕ) : ℚ) * 100)).map
              rnd).sum - 100|
          ≤ ((langs.map
            (fun p => (p.2 : ℚ) / (((langs.map Prod.snd).sum : ℕ) : ℚ) * 100)).length : ℚ) /
              200 := herr
        _ ≤ 20 / 200 := by linarith
        _ = 1 / 10 := by norm_num
    simpa [List.map_map, Function.comp] using hfin
  refine ⟨?_, key⟩
  rw [languagePercentages_map_pct]
  have := key round2 abs_round2_sub_le
  simpa [List.map_map, Function.comp] using this

/-- Witness for C7 at the two-language scenario of the specification. -/
theorem language_percentage_sum_amended_witness :
    0 < (([("Go", 800), ("TS", 200)] : List (String × ℕ)).map Prod.snd).sum ∧
    ([("Go", 800), ("TS", 200)] : List (String × ℕ)).length ≤ 20 ∧
    |((languagePercentages [("Go", 800), ("TS", 200)]).map (fun e => e.2.2)).sum - 100| ≤
      1 / 10 :=
  ⟨by decide, by decide, (language_percentage_sum_amended _ (by decide) (by decide)).1⟩

/-! ## Helper lemmas on the skills summary -/

/-- The fold of practiceStep counts, per flag, the repositories with that
flag set. -/
theorem practice_fold_counts :
    ∀ (l : List RepoAnalysis) (p : PracticeCounts),
      (l.foldl practiceStep p).testing = p.testing + l.countP (fun r => r.has_tests) ∧
      (l.foldl practiceStep p).ci_cd = p.ci_cd + l.countP (fun r => r.has_ci) ∧
      (l.foldl practiceStep p).documentation =
        p.documentation + l.countP (fun r => r.has_docs) ∧
      (l.foldl practiceStep p).code_quality =
        p.code_quality + l.countP (fun r => r.has_linter) ∧
      (l.foldl practiceStep p).oop = p.oop + l.countP (fun r => r.uses_oop) ∧
      (l.foldl practiceStep p).functional =
        p.functional + l.countP (fun r => r.uses_functional) := by
  intro l
  induction l with
  | nil =>
    intro p
    simp
  | cons r rs ih =>
    intro p
    obtain ⟨h1, h2, h3, h4, h5, h6⟩ := ih (practiceStep p r)
    simp only [List.foldl_cons, List.countP_cons]
    refine ⟨?_, ?_, ?_, ?_, ?_, ?_⟩
    · rw [h1]
      dsimp only [practiceStep]
      cases r.has_tests <;> simp [Nat.add_assoc, Nat.add_comm, Nat.add_left_comm]
    · rw [h2]
      dsimp only [practiceStep]
      cases r.has_ci <;> simp [Nat.add_assoc, Nat.add_comm, Nat.add_left_comm]
    · rw [h3]
      dsimp only [practiceStep]
      cases r.has_docs <;> simp [Nat.add_assoc, Nat.add_comm, Nat.add_left_comm]
    · rw [h4]
      dsimp only [practiceStep]
      cases r.has_linter <;> simp [Nat.add_assoc, Nat.add_comm, Nat.add_left_comm]
    · rw [h5]
      dsimp only [practiceStep]
      cases r.uses_oop <;> simp [Nat.add_assoc, Nat.add_comm, Nat.add_left_comm]
    · rw [h6]
      dsimp only [practiceStep]
      cases r.uses_functional <;> simp [Nat.add_assoc, Nat.add_comm, Nat.add_left_comm]

/-- Pointwise success turns mapOption into some of the map. -/
theorem mapOption_eq_map {α β : Type _} (g? : α → Option β) (g : α → β) (l : List α)
    (h : ∀ x ∈ l, g? x = some (g x)) : mapOption g? l = some (l.map g) := by
  induction l with
  | nil => rfl
  | cons x xs ih =>
    simp only [mapOption, List.map_cons]
    rw [h x (List.mem_cons_self _ _), ih (fun y hy => h y (List.mem_cons_of_mem _ hy))]

/-- With a nonzero total, the checked percentage computation succeeds and
agrees with the plain one. -/
theorem languagePercentagesChecked_eq (langs : List (String × ℕ))
    (h : (((langs.map Prod.snd).sum : ℕ) : ℚ) ≠ 0) :
    languagePercentagesChecked langs = some (languagePercentages langs) := by
  simp only [languagePercentagesChecked, languagePercentages]
  refine mapOption_eq_map _ _ _ ?_
  intro p _
  simp only [divQ, if_neg h, Option.map_some']

/-- The checked aggregation always succeeds: every division the source
performs sits behind a guard that forces its denominator nonzero. -/
theorem generate_skills_summary_checked_eq (repos : List RepoAnalysis) :
    generate_skills_summary_checked repos = some (generate_skills_summary repos) := by
  simp only [generate_skills_summary_checked, generate_skills_summary]
  set srv := repos.filter (fun r => !r.error) with hsrv
  set langsAll := srv.foldl (fun acc r => mergeCounts acc r.languages) [] with hlangs
  set avgc := (srv.filter (fun r => 0 < r.total_functions)).map (fun r => r.avg_complexity)
    with havgc
  set avgn := (srv.filter (fun r => 0 < r.total_functions)).map (fun r => r.avg_nloc)
    with havgn
  set cnts := srv.foldl practiceStep ⟨0, 0, 0, 0, 0, 0⟩ with hcnts
  have h1 : (if 0 < (langsAll.map Prod.snd).sum then
        languagePercentagesChecked (sortKeyDesc Prod.snd langsAll) else some []) =
      some (if 0 < (langsAll.map Prod.snd).sum then
        languagePercentages (sortKeyDesc Prod.snd langsAll) else []) := by
    by_cases hb : 0 < (langsAll.map Prod.snd).sum
    · rw [if_pos hb, if_pos hb]
      apply languagePercentagesChecked_eq
      have hperm : ((sortKeyDesc Prod.snd langsAll).map Prod.snd).sum =
          (langsAll.map Prod.snd).sum := ((sortKeyDesc_perm Prod.snd langsAll).map _).sum_eq
      rw [hperm]
      exact_mod_cast hb.ne'
    · rw [if_neg hb, if_neg hb]
  have h2 : (if avgc = [] then some (0 : ℚ)
        else (divQ avgc.sum (avgc.length : ℚ)).map round2) =
      some (if avgc = [] then (0 : ℚ) else round2 (avgc.sum / (avgc.length : ℚ))) := by
    by_cases hz : avgc = []
    · rw [if_pos hz, if_pos hz]
    · rw [if_neg hz, if_neg hz]
      have hne : ((avgc.length : ℕ) : ℚ) ≠ 0 :=
        Nat.cast_ne_zero.2 (fun hh => hz (List.length_eq_zero.1 hh))
      simp only [divQ, if_neg hne, Option.map_some']
  have h3 : (if avgn = [] then some (0 : ℚ)
        else (divQ avgn.sum (avgn.length : ℚ)).map round2) =
      some (if avgn = [] then (0 : ℚ) else round2 (avgn.sum / (avgn.length : ℚ))) := by
    by_cases hz : avgn = []
    · rw [if_pos hz, if_pos hz]
    · rw [if_neg hz, if_neg hz]
      have hne : ((avgn.length : ℕ) : ℚ) ≠ 0 :=
        Nat.cast_ne_zero.2 (fun hh => hz (List.length_eq_zero.1 hh))
      simp only [divQ, if_neg hne, Option.map_some']
  have h4 : (if 0 < repos.length then
        mapOption (fun p : String × ℕ => (divQ (p.2 : ℚ) (repos.length : ℚ)).map
          (fun q => (p.1, round2 (q * 100))))
          [("testing", cnts.testing), ("ci_cd", cnts.ci_cd),
           ("documentation", cnts.documentation), ("code_quality", cnts.code_quality),
           ("oop", cnts.oop), ("functional", cnts.functional)] else some []) =
      some (if 0 < repos.length then
        [("testing", round2 ((cnts.testing : ℚ) / (repos.length : ℚ) * 100)),
         ("ci_cd", round2 ((cnts.ci_cd : ℚ) / (repos.length : ℚ) * 100)),
         ("documentation", round2 ((cnts.documentation : ℚ) / (repos.length : ℚ) * 100)),
         ("code_quality", round2 ((cnts.code_quality : ℚ) / (repos.length : ℚ) * 100)),
         ("oop", round2 ((cnts.oop : ℚ) / (repos.length : ℚ) * 100)),
         ("functional", round2 ((cnts.functional : ℚ) / (repos.length : ℚ) * 100))]
        else []) := by
    by_cases hn : 0 < repos.length
    · rw [if_pos hn, if_pos hn]
      have hne : ((repos.length : ℕ) : ℚ) ≠ 0 := by
        exact_mod_cast hn.ne'
      refine mapOption_eq_map _
        (fun p : String × ℕ => (p.1, round2 ((p.2 : ℚ) / (repos.length : ℚ) * 100))) _ ?_
      intro p _
      simp only [divQ, if_neg hne, Option.map_some']
    · rw [if_neg hn, if_neg hn]
  rw [h1, h2, h3, h4]

/-- With no surviving repository having analyzed functions, the averaged
code metrics are zero. -/
theorem summary_zero_functions (repos : List RepoAnalysis)
    (h : ∀ r ∈ repos, r.error = false → r.total_functions = 0) :
    (generate_skills_summary repos).code_metrics = ⟨0, 0, 0⟩ := by
  have hw : (repos.filter (fun r => !r.error)).filter (fun r => 0 < r.total_functions) = [] := by
    rw [List.filter_eq_nil_iff]
    intro r hr
    have hr2 := List.mem_filter.1 hr
    have he : r.error = false := by
      simpa using hr2.2
    simp [h r hr2.1 he]
  simp only [generate_skills_summary]
  rw [hw]
  simp

/-! ## C5 -/

/-- Claim C5 counterexample: with one error-marked repository and one
analyzed repository that has tests, the testing adoption percentage is
round2(1/2 x 100) = 50: the error repository is excluded from the
numerator but still counted in the denominator, so the value differs from
the 1/1 x 100 = 100 the claim prescribes when error-marked repositories
are excluded from the aggregation. -/
theorem practice_percentage_denominator_counterexample :
    (generate_skills_summary [errRepoEx, testRepoEx]).practices =
      [("testing", round2 ((1 : ℚ) / (2 : ℚ) * 100)),
       ("ci_cd", round2 ((0 : ℚ) / (2 : ℚ) * 100)),
       ("documentation", round2 ((0 : ℚ) / (2 : ℚ) * 100)),
       ("code_quality", round2 ((0 : ℚ) / (2 : ℚ) * 100)),
       ("oop", round2 ((0 : ℚ) / (2 : ℚ) * 100)),
       ("functional", round2 ((0 : ℚ) / (2 : ℚ) * 100))] ∧
    round2 ((1 : ℚ) / (2 : ℚ) * 100) = 50 ∧
    round2 ((1 : ℚ) / (1 : ℚ) * 100) = 100 ∧
    (50 : ℚ) ≠ 100 := by
  refine ⟨?_, ?_, ?_, by norm_num⟩
  · simp only [generate_skills_summary, errRepoEx, testRepoEx]
    norm_num [practiceStep]
  · unfold round2 rne
    norm_num
  · unfold round2 rne
    norm_num

/-- Claim C5, amended: each practice adoption percentage is the count of
error-free repositories with that flag set, divided by the total number of
fetched repositories including the error-marked ones, times 100, rounded
to two decimals.  Error-marked repositories contribute to no numerator but
are counted in the denominator. -/
theorem practice_percentages_amended (repos : List RepoAnalysis) (h : repos ≠ []) :
    (generate_skills_summary repos).practices =
      [("testing", round2
          ((repos.countP (fun r => r.has_tests && !r.error) : ℚ) / (repos.length : ℚ) * 100)),
       ("ci_cd", round2
          ((repos.countP (fun r => r.has_ci && !r.error) : ℚ) / (repos.length : ℚ) * 100)),
       ("documentation", round2
          ((repos.countP (fun r => r.has_docs && !r.error) : ℚ) / (repos.length : ℚ) * 100)),
       ("code_quality", round2
          ((repos.countP (fun r => r.has_linter && !r.error) : ℚ) / (repos.length : ℚ) * 100)),
       ("oop", round2
          ((repos.countP (fun r => r.uses_oop && !r.error) : ℚ) / (repos.length : ℚ) * 100)),
       ("functional", round2
          ((repos.countP (fun r => r.uses_functional && !r.error) : ℚ) /
            (repos.length : ℚ) * 100))] := by
  obtain ⟨h1, h2, h3, h4, h5, h6⟩ :=
    practice_fold_counts (repos.filter (fun r => !r.error)) ⟨0, 0, 0, 0, 0, 0⟩
  simp only [generate_skills_summary]
  rw [if_pos (List.length_pos.2 h), h1, h2, h3, h4, h5, h6]
  simp only [Nat.zero_add, List.countP_filter]

/-- Witness for C5 at the two-repository counterexample input. -/
theorem practice_percentages_amended_witness :
    ([errRepoEx, testRepoEx] : List RepoAnalysis) ≠ [] ∧
    (generate_skills_summary [errRepoEx, testRepoEx]).practices =
      [("testing", round2
          (([errRepoEx, testRepoEx].countP (fun r => r.has_tests && !r.error) : ℚ) /
            (([errRepoEx, testRepoEx] : List RepoAnalysis).length : ℚ) * 100)),
       ("ci_cd", round2
          (([errRepoEx, testRepoEx].countP (fun r => r.has_ci && !r.error) : ℚ) /
            (([errRepoEx, testRepoEx] : List RepoAnalysis).length : ℚ) * 100)),
       ("documentation", round2
          (([errRepoEx, testRepoEx].countP (fun r => r.has_docs && !r.error) : ℚ) /
            (([errRepoEx, testRepoEx] : List RepoAnalysis).length : ℚ) * 100)),
       ("code_quality", round2
          (([errRepoEx, testRepoEx].countP (fun r => r.has_linter && !r.error) : ℚ) /
            (([errRepoEx, testRepoEx] : List RepoAnalysis).length : ℚ) * 100)),
       ("oop", round2
          (([errRepoEx, testRepoEx].countP (fun r => r.uses_oop && !r.error) : ℚ) /
            (([errRepoEx, testRepoEx] : List RepoAnalysis).length : ℚ) * 100)),
       ("functional", round2
          (([errRepoEx, testRepoEx].countP (fun r => r.uses_functional && !r.error) : ℚ) /
            (([errRepoEx, testRepoEx] : List RepoAnalysis).length : ℚ) * 100))] :=
  ⟨by decide, practice_percentages_amended [errRepoEx, testRepoEx] (by decide)⟩

/-! ## C6 -/

/-- Claim C6 counterexample: a single analyzed repository with zero
analyzed functions but with language bytes and a tests probe yields a
summary whose language percentages are not empty and whose testing
adoption is 100, not 0: with only zero-function repositories, not all the
listed metrics are 0 or empty. -/
theorem summary_zero_functions_metrics_counterexample :
    (∀ r ∈ [mdRepoEx], r.total_functions = 0) ∧
    (generate_skills_summary [mdRepoEx]).languages ≠ [] ∧
    List.lookup "testing" (generate_skills_summary [mdRepoEx]).practices =
      some (round2 ((1 : ℚ) / (1 : ℚ) * 100)) ∧
    round2 ((1 : ℚ) / (1 : ℚ) * 100) = 100 ∧
    (100 : ℚ) ≠ 0 := by
  refine ⟨by decide, ?_, ?_, ?_, by norm_num⟩
  · simp [generate_skills_summary, mdRepoEx, mergeCounts, addCount, sortKeyDesc,
      insertKeyDesc, languagePercentages]
  · simp only [generate_skills_summary, mdRepoEx]
    norm_num [practiceStep, List.lookup]
  · unfold round2 rne
    norm_num

/-- Claim C6, amended: the checked aggregation succeeds on every input (no
division by zero is ever performed); aggregating zero repositories yields
the summary with every metric 0 or empty; and when every error-free
repository has zero analyzed functions, the averaged complexity, the
averaged function size and the total function count are 0 (language and
practice percentages may still be populated from language bytes and
pattern flags, as the counterexample shows). -/
theorem summary_division_safety_amended :
    (∀ repos : List RepoAnalysis,
        generate_skills_summary_checked repos = some (generate_skills_summary repos)) ∧
    generate_skills_summary [] =
      { languages := [], top_libraries := [], frameworks := [],
        code_metrics := ⟨0, 0, 0⟩, practices := [], repo_count := 0 } ∧
    (∀ repos : List RepoAnalysis, (∀ r ∈ repos, r.error = false → r.total_functions = 0) →
        (generate_skills_summary repos).code_metrics = ⟨0, 0, 0⟩) :=
  ⟨generate_skills_summary_checked_eq, rfl, summary_zero_functions⟩

/-- Witness for C6 at a concrete input with zero analyzed functions. -/
theorem summary_division_safety_amended_witness :
    generate_skills_summary_checked [mdRepoEx] = some (generate_skills_summary [mdRepoEx]) ∧
    (generate_skills_summary [mdRepoEx]).code_metrics = ⟨0, 0, 0⟩ :=
  ⟨summary_division_safety_amended.1 [mdRepoEx],
   summary_division_safety_amended.2.2 [mdRepoEx] (by decide)⟩

/-! ## Helper lemmas on the string order and the ascending sort -/

/-- The lexicographic comparison is total. -/
theorem lexLeB_total : ∀ (a b : List Char), lexLeB a b = true ∨ lexLeB b a = true := by
  intro a
  induction a with
  | nil =>
    intro b
    left
    rfl
  | cons x xs ih =>
    intro b
    cases b with
    | nil =>
      right
      rfl
    | cons y ys =>
      rcases lt_trichotomy x y with h | h | h
      · left
        simp [lexLeB, h]
      · subst h
        rcases ih ys with h2 | h2
        · left
          simp [lexLeB, lt_irrefl, h2]
        · right
          simp [lexLeB, lt_irrefl, h2]
      · right
        simp [lexLeB, h]

/-- The lexicographic comparison is transitive. -/
theorem lexLeB_trans : ∀ (a b c : List Char),
    lexLeB a b = true → lexLeB b c = true → lexLeB a c = true := by
  intro a
  induction a with
  | nil =>
    intro b c _ _
    rfl
  | cons x xs ih =>
    intro b c hab hbc
    cases b with
    | nil => simp [lexLeB] at hab
    | cons y ys =>
      cases c with
      | nil => simp [lexLeB] at hbc
      | cons z zs =>
        rcases lt_trichotomy x y with h1 | h1 | h1
        · rcases lt_trichotomy y z with h2 | h2 | h2
          · simp [lexLeB, lt_trans h1 h2]
          · subst h2
            simp [lexLeB, h1]
          · simp [lexLeB, lt_asymm h2, h2] at hbc
        · subst h1
          rcases lt_trichotomy x z with h2 | h2 | h2
          · simp [lexLeB, h2]
          · subst h2
            simp only [lexLeB, lt_irrefl, if_false] at hab hbc ⊢
            exact ih ys zs hab hbc
          · simp [lexLeB, lt_asymm h2, h2] at hbc
        · simp [lexLeB, lt_asymm h1, h1] at hab

/-- The lexicographic comparison is antisymmetric. -/
theorem lexLeB_antisymm : ∀ (a b : List Char),
    lexLeB a b = true → lexLeB b a = true → a = b := by
  intro a
  induction a with
  | nil =>
    intro b hab hba
    cases b with
    | nil => rfl
    | cons y ys => simp [lexLeB] at hba
  | cons x xs ih =>
    intro b hab hba
    cases b with
    | nil => simp [lexLeB] at hab
    | cons y ys =>
      rcases lt_trichotomy x y with h | h | h
      · simp [lexLeB, lt_asymm h, h] at hba
      · subst h
        simp only [lexLeB, lt_irrefl, if_false] at hab hba
        rw [ih ys hab hba]
      · simp [lexLeB, lt_asymm h, h] at hab

/-- The Python string order is total. -/
theorem strLeB_total (a b : String) : strLeB a b = true ∨ strLeB b a = true :=
  lexLeB_total a.data b.data

/-- The Python string order is transitive. -/
theorem strLeB_trans {a b c : String} (h1 : strLeB a b = true) (h2 : strLeB b c = true) :
    strLeB a c = true :=
  lexLeB_trans a.data b.data c.data h1 h2

/-- The Python string order is antisymmetric. -/
theorem strLeB_antisymm {a b : String} (h1 : strLeB a b = true) (h2 : strLeB b a = true) :
    a = b :=
  String.ext (lexLeB_antisymm a.data b.data h1 h2)

/-- Inserting a string adds exactly one occurrence. -/
theorem insertStrAsc_perm (s : String) (l : List String) :
    (insertStrAsc s l).Perm (s :: l) := by
  induction l with
  | nil => exact List.Perm.refl _
  | cons t ts ih =>
    by_cases h : strLeB s t = true
    · simp only [insertStrAsc, if_pos h]
      exact List.Perm.refl _
    · simp only [insertStrAsc, if_neg h]
      exact (ih.cons t).trans (List.Perm.swap s t ts)

/-- Insertion preserves the ascending arrangement. -/
theorem insertStrAsc_pairwise (s : String) (l : List String)
    (h : l.Pairwise (fun a b => strLeB a b = true)) :
    (insertStrAsc s l).Pairwise (fun a b => strLeB a b = true) := by
  induction l with
  | nil => simp [insertStrAsc]
  | cons t ts ih =>
    rcases List.pairwise_cons.1 h with ⟨ht, hts⟩
    by_cases hst : strLeB s t = true
    · simp only [insertStrAsc, if_pos hst]
      refine List.pairwise_cons.2 ⟨?_, h⟩
      intro z hz
      rcases List.mem_cons.1 hz with rfl | hz
      · exact hst
      · exact strLeB_trans hst (ht z hz)
    · simp only [insertStrAsc, if_neg hst]
      have hts2 : strLeB t s = true := (strLeB_total s t).resolve_left hst
      refine List.pairwise_cons.2 ⟨?_, ih hts⟩
      intro z hz
      rcases List.mem_cons.1 ((insertStrAsc_perm s ts).subset hz) with rfl | hz2
      · exact hts2
      · exact ht z hz2

/-- The embedded Python sorted permutes its input. -/
theorem sortStrings_perm (l : List String) : (sortStrings l).Perm l := by
  induction l with
  | nil => exact List.Perm.refl _
  | cons x xs ih =>
    simp only [sortStrings, List.foldr_cons]
    exact (insertStrAsc_perm x _).trans (ih.cons x)

/-- The embedded Python sorted yields an ascending arrangement. -/
theorem sortStrings_pairwise (l : List String) :
    (sortStrings l).Pairwise (fun a b => strLeB a b = true) := by
  induction l with
  | nil => simp [sortStrings]
  | cons x xs ih => exact insertStrAsc_pairwise x _ ih

/-- Sorting depends only on the multiset of strings. -/
theorem sortStrings_eq_of_perm {l1 l2 : List String} (h : l1.Perm l2) :
    sortStrings l1 = sortStrings l2 := by
  haveI : IsAntisymm String (fun a b => strLeB a b = true) :=
    ⟨fun a b h1 h2 => strLeB_antisymm h1 h2⟩
  exact List.eq_of_perm_of_sorted
    ((sortStrings_perm l1).trans (h.trans (sortStrings_perm l2).symm))
    (sortStrings_pairwise l1) (sortStrings_pairwise l2)

/-! ## C4 -/

/-- Claim C4 counterexample: the lists ["go", "go"] and ["go"] are equal as
sets of lowercased names, yet their digests differ, because the code sorts
and joins the lowercased list with multiplicity: the pre-hash strings are
"user:go,go:s3cret" and "user:go:s3cret", whose SHA-256 digests are
distinct.  Equality as sets does not suffice for equal digests. -/
theorem verification_hash_set_equality_counterexample :
    (["go", "go"].map pyLower).toFinset = (["go"].map pyLower).toFinset ∧
    generate_verification_hash "user" ["go", "go"] "s3cret" ≠
      generate_verification_hash "user" ["go"] "s3cret" :=
  ⟨by decide, by decide⟩

/-- Claim C4, amended: generate_verification_hash is deterministic (it is
a function of its inputs), and its digest is unchanged under any
permutation and recasing of the skill list that preserves the multiset of
lowercased names; in particular hash(user, ["Go", "rust"]) equals
hash(user, ["Rust", "go"]), while the different username "user2" with the
same skills yields a different digest (witnessed concretely under the
secret "s3cret").  Equality as plain sets is not sufficient when
multiplicities differ, as the counterexample shows. -/
theorem verification_hash_properties :
    (∀ (u secretKey : String) (l1 l2 : List String),
        (l1.map pyLower).Perm (l2.map pyLower) →
        generate_verification_hash u l1 secretKey =
          generate_verification_hash u l2 secretKey) ∧
    generate_verification_hash "user" ["Go", "rust"] "s3cret" =
      generate_verification_hash "user" ["Rust", "go"] "s3cret" ∧
    generate_verification_hash "user2" ["Go", "rust"] "s3cret" ≠
      generate_verification_hash "user" ["Go", "rust"] "s3cret" := by
  refine ⟨?_, ?_, by decide⟩
  · intro u secretKey l1 l2 h
    simp only [generate_verification_hash, sortStrings_eq_of_perm h]
  · have h2 : sortStrings (["Go", "rust"].map pyLower) =
        sortStrings (["Rust", "go"].map pyLower) := by decide
    simp only [generate_verification_hash, h2]

/-- Witness for C4 at a concrete permuted and recased pair. -/
theorem verification_hash_properties_witness :
    (["B", "a"].map pyLower).Perm (["A", "b"].map pyLower) ∧
    generate_verification_hash "u" ["B", "a"] "k" =
      generate_verification_hash "u" ["A", "b"] "k" :=
  ⟨by decide, verification_hash_properties.1 "u" "k" ["B", "a"] ["A", "b"] (by decide)⟩

end TrustChain
